import Mathlib

/-!
Verification development for the smartcart shopping-list engine.

This file gives a shallow embedding, in Lean 4, of the classification,
normalization and consolidation logic of the application (the functions
`exactMatchCategory`, `categorizeItem`, `askAIForCategory`,
`categorizeByRules`, `cleanPreparationTerms`,
`normalizeIngredientForShopping`, `addItem` and `checkAndMergeDuplicates`
from `app/(tabs)/list.tsx` and `app/(tabs)/recipes.tsx`), and proves or
refutes the specified properties of that logic.

Modelling conventions:
* JavaScript strings are Lean `String`s (all the data involved is ASCII);
  `s.includes(t)` is modelled by `strIncludes s t`, `s.toLowerCase()` by
  `jsToLower`, `s.trim()` by `jsTrim`.
* The Firestore collection is modelled as a `List Item` in snapshot order
  (which is also taken as creation order); document identity is the
  position in that list.
* `await fetch` responses from the external inference service are modelled
  by the inductive type `AIResp`; `try/catch` blocks that always resolve to
  a category are modelled by total functions.
* JavaScript numbers appearing in quantity parsing are modelled by `ℚ`
  (every quantity literal involved is exactly representable).
* `x || y` on a possibly-zero number is modelled by `eff`, and on a
  possibly-empty string by `catEff`.
-/

/-- Whitespace characters for the purposes of JavaScript `trim` and the
regex classes `\s` / `[,;:\s]` (the data involved contains only spaces,
but tabs and line breaks are covered for fidelity). -/
def isWsChar (c : Char) : Bool :=
  c == ' ' || c == '\t' || c == '\n' || c == '\r'

/-- Model of JavaScript `s.trim()` (drop leading and trailing whitespace),
implemented on the character list so that it evaluates by kernel
reduction. -/
def jsTrim (s : String) : String :=
  String.mk (((s.toList.dropWhile isWsChar).reverse.dropWhile isWsChar).reverse)

/-- Model of JavaScript `s.toLowerCase()` (ASCII data only). -/
def jsToLower (s : String) : String :=
  String.mk (s.toList.map Char.toLower)

/-- `List.isPrefixOfCB t s`: Boolean test that `t` is a prefix of `s`
(character lists). -/
def isPrefixCB : List Char → List Char → Bool
  | [], _ => true
  | _ :: _, [] => false
  | a :: as, b :: bs => a == b && isPrefixCB as bs

/-- Boolean substring test on character lists (`pat` occurs inside `s`). -/
def isSubstrCB (pat : List Char) : List Char → Bool
  | [] => isPrefixCB pat []
  | c :: rest => isPrefixCB pat (c :: rest) || isSubstrCB pat rest

/-- Model of JavaScript `s.includes(pat)`. -/
def strIncludes (s pat : String) : Bool :=
  isSubstrCB pat.toList s.toList

/-- An item record of the `groceryItems` collection, restricted to the
fields the engine reads or writes. -/
structure Item where
  text : String
  quantity : Nat
  category : String
  completed : Bool
deriving DecidableEq, Repr

/-- `data.quantity || 1` : a zero (falsy) stored quantity reads back as 1. -/
def eff (q : Nat) : Nat := if q = 0 then 1 else q

/-- `data.category || 'Other'` : an empty (falsy) category reads back as
the catch-all. -/
def catEff (c : String) : String := if c = "" then "Other" else c

/-- The `FOOD_CATEGORIES` table of `list.tsx` (category → keyword list),
in declaration order. -/
def FOOD_CATEGORIES_L : List (String × List String) :=
  [("Produce",
    ["apple", "banana", "orange", "lettuce", "tomato", "carrot", "onion", "potato", "broccoli", "spinach",
     "cucumber", "pepper", "garlic", "lemon", "lime", "avocado", "celery", "mushroom", "zucchini", "kale",
     "fresh herbs", "fresh fruit", "fresh vegetable"]),
   ("Dairy",
    ["milk", "cheese", "yogurt", "butter", "cream", "eggs", "sour cream", "cottage cheese", "cream cheese",
     "half and half", "whipped cream", "heavy cream", "almond milk", "oat milk", "soy milk"]),
   ("Meat",
    ["chicken", "beef", "pork", "turkey", "ham", "steak", "ground beef", "bacon", "sausage", "lamb",
     "ground turkey", "ground pork", "veal", "duck", "fresh meat", "deli meat", "hot dog", "meatball"]),
   ("Seafood",
    ["fish", "salmon", "tuna", "shrimp", "crab", "lobster", "scallop", "mussel", "clam", "oyster",
     "tilapia", "cod", "halibut", "fresh fish", "fresh seafood", "sushi grade", "calamari", "octopus"]),
   ("Pantry",
    ["rice", "pasta", "bread", "cereal", "flour", "sugar", "oil", "vinegar", "sauce", "spice",
     "seasoning", "canned", "dried", "baking", "condiment", "syrup", "honey", "peanut butter",
     "jam", "jelly", "bean", "lentil", "grain", "fish sauce", "oyster sauce", "soy sauce",
     "hot sauce", "tomato sauce", "worcestershire sauce", "BBQ sauce", "teriyaki sauce",
     "hoisin sauce", "salsa", "ketchup", "mustard", "mayo", "mayonnaise", "salt", "pepper"]),
   ("Snacks",
    ["chips", "cookies", "crackers", "nuts", "candy", "chocolate", "popcorn", "pretzel", "granola bar",
     "protein bar", "trail mix", "dried fruit", "gummy", "snack"]),
   ("Beverages",
    ["water", "juice", "soda", "coffee", "tea", "beer", "wine", "alcohol", "drink", "sparkling water",
     "energy drink", "sports drink", "orange juice", "apple juice", "grape juice", "coconut water"]),
   ("Frozen",
    ["ice cream", "frozen pizza", "frozen vegetables", "frozen fruit", "frozen dinner", "frozen meal",
     "frozen food", "frozen", "ice", "popsicle", "frozen yogurt", "frozen meat", "frozen fish"]),
   ("Other", [])]

/-- The `FOOD_CATEGORIES` table of `recipes.tsx`; it differs from the
`list.tsx` table only in the `Pantry` keyword list. -/
def FOOD_CATEGORIES_R : List (String × List String) :=
  [("Produce",
    ["apple", "banana", "orange", "lettuce", "tomato", "carrot", "onion", "potato", "broccoli", "spinach",
     "cucumber", "pepper", "garlic", "lemon", "lime", "avocado", "celery", "mushroom", "zucchini", "kale",
     "fresh herbs", "fresh fruit", "fresh vegetable"]),
   ("Dairy",
    ["milk", "cheese", "yogurt", "butter", "cream", "eggs", "sour cream", "cottage cheese", "cream cheese",
     "half and half", "whipped cream", "heavy cream", "almond milk", "oat milk", "soy milk"]),
   ("Meat",
    ["chicken", "beef", "pork", "turkey", "ham", "steak", "ground beef", "bacon", "sausage", "lamb",
     "ground turkey", "ground pork", "veal", "duck", "fresh meat", "deli meat", "hot dog", "meatball"]),
   ("Seafood",
    ["fish", "salmon", "tuna", "shrimp", "crab", "lobster", "scallop", "mussel", "clam", "oyster",
     "tilapia", "cod", "halibut", "fresh fish", "fresh seafood", "sushi grade", "calamari", "octopus"]),
   ("Pantry",
    ["rice", "pasta", "bread", "cereal", "flour", "sugar", "oil", "vinegar", "sauce", "spice",
     "seasoning", "canned", "dried", "baking", "condiment", "syrup", "honey", "peanut butter",
     "jam", "jelly", "bean", "lentil", "grain", "pepper flakes", "red pepper flakes", "salt", "black pepper"]),
   ("Snacks",
    ["chips", "cookies", "crackers", "nuts", "candy", "chocolate", "popcorn", "pretzel", "granola bar",
     "protein bar", "trail mix", "dried fruit", "gummy", "snack"]),
   ("Beverages",
    ["water", "juice", "soda", "coffee", "tea", "beer", "wine", "alcohol", "drink", "sparkling water",
     "energy drink", "sports drink", "orange juice", "apple juice", "grape juice", "coconut water"]),
   ("Frozen",
    ["ice cream", "frozen pizza", "frozen vegetables", "frozen fruit", "frozen dinner", "frozen meal",
     "frozen food", "frozen", "ice", "popsicle", "frozen yogurt", "frozen meat", "frozen fish"]),
   ("Other", [])]

/-- `COMPOUND_TERMS` (identical in `list.tsx` and `recipes.tsx`): exact
multi-word phrase → category. -/
def COMPOUND_TERMS : List (String × String) :=
  [("fish sauce", "Pantry"), ("oyster sauce", "Pantry"), ("soy sauce", "Pantry"),
   ("hot sauce", "Pantry"), ("tomato sauce", "Pantry"), ("pasta sauce", "Pantry"),
   ("bbq sauce", "Pantry"), ("barbecue sauce", "Pantry"), ("worcestershire sauce", "Pantry"),
   ("teriyaki sauce", "Pantry"), ("hoisin sauce", "Pantry"), ("chicken stock", "Pantry"),
   ("beef stock", "Pantry"), ("vegetable stock", "Pantry"), ("chicken broth", "Pantry"),
   ("beef broth", "Pantry"), ("vegetable broth", "Pantry"), ("coconut milk", "Pantry"),
   ("tomato paste", "Pantry"), ("tomato puree", "Pantry"), ("chicken seasoning", "Pantry"),
   ("beef seasoning", "Pantry"), ("fish seasoning", "Pantry"), ("taco seasoning", "Pantry"),
   ("italian seasoning", "Pantry"), ("cajun seasoning", "Pantry")]

/-- The nine category names, in table order (`Object.keys(FOOD_CATEGORIES)`;
identical for both files). -/
def catNames : List String :=
  ["Produce", "Dairy", "Meat", "Seafood", "Pantry", "Snacks", "Beverages", "Frozen", "Other"]

/-- `exactMatchCategory`, parametrized by the keyword table of the file it
lives in: exact compound-term match first, then exact keyword match in any
category other than `Other`. -/
def exactMatchCategoryWith (tbl : List (String × List String)) (item : String) : Option String :=
  let lc := jsTrim (jsToLower item)
  match COMPOUND_TERMS.find? (fun p => lc == p.1) with
  | some p => some p.2
  | none =>
    match tbl.find? (fun p => p.1 != "Other" && p.2.contains lc) with
    | some p => some p.1
    | none => none

/-- `exactMatchCategory` of `list.tsx`. -/
def exactMatchCategoryL (item : String) : Option String :=
  exactMatchCategoryWith FOOD_CATEGORIES_L item

/-- `exactMatchCategory` of `recipes.tsx`. -/
def exactMatchCategoryR (item : String) : Option String :=
  exactMatchCategoryWith FOOD_CATEGORIES_R item

/-- One response of the external inference service to a single request:
an HTTP error status (`!response.ok`), a network failure (`fetch` threw),
or a 200 body whose extracted `candidates[0].content.parts[0].text` is
either absent (`none`) or the given string. -/
inductive AIResp where
  | httpErr (status : Nat)
  | netErr
  | ok (text : Option String)
deriving DecidableEq, Repr

/-- `askAIForCategory` of `list.tsx` (single request, no retry): any
thrown error is caught and yields `Other`; an extracted label is matched
case-insensitively against the category names and otherwise falls back to
`Other`. The empty string is falsy in the response-format check, hence an
error. -/
def askAIForCategoryL (resp : AIResp) : String :=
  match resp with
  | .httpErr _ => "Other"
  | .netErr => "Other"
  | .ok none => "Other"
  | .ok (some s) =>
    if s = "" then "Other"
    else
      let suggested := jsTrim s
      match catNames.find? (fun cat => jsToLower suggested == jsToLower cat) with
      | some cat => cat
      | none => "Other"

/-- `categorizeItem` of `list.tsx`: exact matching first, otherwise the
result of `askAIForCategory` on the collaborator's response. -/
def categorizeItemL (resp : AIResp) (text : String) : String :=
  match exactMatchCategoryL text with
  | some c => c
  | none => askAIForCategoryL resp

/-- `MAX_RETRIES` of `recipes.tsx`. -/
def MAX_RETRIES : Nat := 3

/-- The observable outcome of one `askAIForCategory` call in
`recipes.tsx`: the returned category, the number of requests issued, and
the backoff delay (ms) waited before each request. -/
structure AIRun where
  result : String
  attempts : Nat
  delays : List Nat
deriving DecidableEq, Repr

/-- The retry loop of `askAIForCategory` in `recipes.tsx`. `oracle n` is
the collaborator's response to the request made with `retries = n`; `fuel`
is `MAX_RETRIES - retries`, so `fuel = 0` is the `retries < MAX_RETRIES`
loop exit (which returns `Other`). A 429 status retries with exponential
backoff; any other failure (error status, network error, missing or empty
response text) is caught, counts against the budget, and returns `Other`
once the budget is spent; a successful label is validated by exact
membership in the category-name list. -/
def askLoopR (oracle : Nat → AIResp) : Nat → Nat → AIRun
  | _, 0 => ⟨"Other", 0, []⟩
  | retries, fuel + 1 =>
    let d := if retries > 0 then 2 ^ retries * 1000 else 0
    match oracle retries with
    | .httpErr status =>
      if status = 429 then
        let r := askLoopR oracle (retries + 1) fuel
        ⟨r.result, r.attempts + 1, d :: r.delays⟩
      else if retries + 1 ≥ MAX_RETRIES then ⟨"Other", 1, [d]⟩
      else
        let r := askLoopR oracle (retries + 1) fuel
        ⟨r.result, r.attempts + 1, d :: r.delays⟩
    | .netErr =>
      if retries + 1 ≥ MAX_RETRIES then ⟨"Other", 1, [d]⟩
      else
        let r := askLoopR oracle (retries + 1) fuel
        ⟨r.result, r.attempts + 1, d :: r.delays⟩
    | .ok none =>
      if retries + 1 ≥ MAX_RETRIES then ⟨"Other", 1, [d]⟩
      else
        let r := askLoopR oracle (retries + 1) fuel
        ⟨r.result, r.attempts + 1, d :: r.delays⟩
    | .ok (some s) =>
      if s = "" then
        if retries + 1 ≥ MAX_RETRIES then ⟨"Other", 1, [d]⟩
        else
          let r := askLoopR oracle (retries + 1) fuel
          ⟨r.result, r.attempts + 1, d :: r.delays⟩
      else
        let suggested := jsTrim s
        if catNames.contains suggested then ⟨suggested, 1, [d]⟩
        else ⟨"Other", 1, [d]⟩

/-- `askAIForCategory` of `recipes.tsx`: exact matching first, then the
retry loop starting at `retries = 0`. -/
def askAIForCategoryR (oracle : Nat → AIResp) (item : String) : AIRun :=
  match exactMatchCategoryR item with
  | some c => ⟨c, 0, []⟩
  | none => askLoopR oracle 0 MAX_RETRIES

/-- `categorizeByRules` of `recipes.tsx`: exact matching, otherwise
`Other`. -/
def categorizeByRulesR (item : String) : String :=
  match exactMatchCategoryR item with
  | some c => c
  | none => "Other"

/-- Modelled from the spec (§4.2 step 3), for comparison with the code:
tier 3 returns the first category one of whose multi-word keywords is a
substring of the normalized text. -/
def specCompoundSubstringTier (tbl : List (String × List String)) (text : String) : Option String :=
  let lc := jsTrim (jsToLower text)
  match tbl.find? (fun p => p.2.any (fun kw => strIncludes kw " " && strIncludes lc kw)) with
  | some p => some p.1
  | none => none

/-- Modelled from the spec (§4.2 step 4), for comparison with the code:
tier 4 returns the first category one of whose keywords is a substring of
the normalized text or contains it. -/
def specPartialTier (tbl : List (String × List String)) (text : String) : Option String :=
  let lc := jsTrim (jsToLower text)
  match tbl.find? (fun p => p.2.any (fun kw => strIncludes lc kw || strIncludes kw lc)) with
  | some p => some p.1
  | none => none

/-- The `prepTerms` list of `cleanPreparationTerms` in `recipes.tsx`, in
source order. -/
def prepTerms : List String :=
  ["chopped", "diced", "minced", "sliced", "cubed", "julienned", "shredded",
   "grated", "peeled", "trimmed", "finely", "coarsely", "thinly", "roughly",
   "freshly", "crushed", "crumbled", "ground", "powdered", "sifted",
   "melted", "softened", "room temperature", "chilled", "frozen", "thawed",
   "drained", "rinsed", "washed", "cleaned", "stemmed", "pitted", "seeded",
   "cored", "blanched", "boiled", "steamed", "roasted", "toasted", "sautéed",
   "fried", "grilled", "baked", "zested", "juiced"]

/-- A word character for the regex class `\w` (ASCII letters, digits,
underscore). -/
def isWordChar (c : Char) : Bool := c.isAlphanum || c == '_'

/-- Drop the character-list prefix `t` from `s`, or fail. -/
def dropPrefixC : List Char → List Char → Option (List Char)
  | [], s => some s
  | _ :: _, [] => none
  | a :: as, b :: bs => if a == b then dropPrefixC as bs else none

theorem dropPrefixC_length :
    ∀ (t s r : List Char), dropPrefixC t s = some r → t.length + r.length = s.length := by
  intro t
  induction t with
  | nil =>
    intro s r h
    simp only [dropPrefixC, Option.some.injEq] at h
    simp [h]
  | cons a as ih =>
    intro s r h
    cases s with
    | nil => simp [dropPrefixC] at h
    | cons b bs =>
      simp only [dropPrefixC] at h
      split at h
      · have := ih bs r h
        simp only [List.length_cons]
        omega
      · exact absurd h (by simp)

/-- Whether the regex `\b` holds just before a match, given the previous
character of the original string (`none` at the start of the string). -/
def boundaryBefore : Option Char → Bool
  | none => true
  | some c => !isWordChar c

/-- Whether the regex `\b` holds just after a match, given the rest of the
original string. -/
def boundaryAfter : List Char → Bool
  | [] => true
  | c :: _ => !isWordChar c

/-- One global pass of JavaScript `s.replace(new RegExp("\\b" + term +
"\\b", "gi"), "")` on an already-lower-cased string with a lower-case
`term`: scan left to right, and wherever `term` occurs with a word
boundary on both sides, delete it and resume after it (boundaries are
judged against the original string, as the regex does). `prev` is the
character preceding the scan position. The terms of `prepTerms` are all
nonempty; an empty `term` is left alone. The recursion is driven by a
fuel argument so that it is structural (and hence evaluates by kernel
reduction); every step consumes at least one character of `s`, so by
`dropPrefixC_length` a fuel of `s.length` is never exhausted. -/
def rwbAux (t : List Char) : Nat → Option Char → List Char → List Char
  | 0, _, s => s
  | fuel + 1, prev, s =>
    match s with
    | [] => []
    | c :: cs =>
      match dropPrefixC t (c :: cs) with
      | some r =>
        if t = [] then c :: rwbAux t fuel (some c) cs
        else if boundaryBefore prev && boundaryAfter r then rwbAux t fuel t.getLast? r
        else c :: rwbAux t fuel (some c) cs
      | none => c :: rwbAux t fuel (some c) cs

/-- `s.replace(/\bterm\b/gi, '')` for a whole (possibly multi-word)
preparation term. -/
def removeWordTerm (s term : String) : String :=
  String.mk (rwbAux term.toList s.toList.length none s.toList)

/-- Scan past a `[^)]*` run and the closing parenthesis, as the regex
`\([^)]*\)` requires after the opening parenthesis. -/
def dropParenTail (cs : List Char) : Option (List Char) :=
  match cs.dropWhile (fun c => c != ')') with
  | ')' :: r => some r
  | _ => none

theorem length_dropWhileC (p : Char → Bool) :
    ∀ (l : List Char), (l.dropWhile p).length ≤ l.length := by
  intro l
  induction l with
  | nil => simp [List.dropWhile]
  | cons c cs ih =>
    simp only [List.dropWhile]
    split
    · exact Nat.le_succ_of_le ih
    · simp

theorem dropParenTail_length :
    ∀ (cs r : List Char), dropParenTail cs = some r → r.length < cs.length := by
  intro cs r h
  simp only [dropParenTail] at h
  split at h
  next heq =>
    cases h
    have hle := length_dropWhileC (fun c => c != ')') cs
    rw [heq] at hle
    simp only [List.length_cons] at hle
    omega
  next => exact absurd h (by simp)

/-- `s.replace(/\([^)]*\)/g, '')`: delete every parenthesized aside (an
opening parenthesis with no matching close is kept, as the regex finds no
match there). Fuel-driven structural recursion as in `rwbAux`; every step
consumes at least one character, so by `dropParenTail_length` a fuel of
`s.length` is never exhausted. -/
def removeParensAux : Nat → List Char → List Char
  | 0, s => s
  | fuel + 1, s =>
    match s with
    | [] => []
    | '(' :: rest =>
      match dropParenTail rest with
      | some r => removeParensAux fuel r
      | none => '(' :: removeParensAux fuel rest
    | c :: rest => c :: removeParensAux fuel rest

/-- String wrapper for `removeParensAux`. -/
def removeParens (s : String) : String := String.mk (removeParensAux s.toList.length s.toList)

/-- `s.replace(/\s+/g, ' ')`: collapse each maximal whitespace run to one
space (the flag records whether the previous character was whitespace). -/
def collapseWsAux : Bool → List Char → List Char
  | _, [] => []
  | inWs, c :: cs =>
    if isWsChar c then
      if inWs then collapseWsAux true cs else ' ' :: collapseWsAux true cs
    else c :: collapseWsAux false cs

/-- String wrapper for `collapseWsAux`. -/
def collapseWs (s : String) : String := String.mk (collapseWsAux false s.toList)

/-- `s.replace(/^[,;:\s]+/, '')`. -/
def stripLeadingPunct (s : String) : String :=
  String.mk (s.toList.dropWhile (fun c => c == ',' || c == ';' || c == ':' || isWsChar c))

/-- `s.charAt(0).toUpperCase() + s.slice(1)` (the empty string is left
unchanged, matching the `length > 0` guard in the source). -/
def capitalizeFirst (s : String) : String :=
  match s.toList with
  | [] => s
  | c :: cs => String.mk (c.toUpper :: cs)

/-- `s.split(',')[0]`: the prefix before the first comma. -/
def takeBeforeComma (s : String) : String :=
  String.mk (s.toList.takeWhile (fun c => c != ','))

/-- `cleanPreparationTerms` of `recipes.tsx`: lower-case, delete
parenthesized asides, delete each preparation term as a whole word,
collapse whitespace, strip leading punctuation, truncate at the first
comma, capitalize the first letter, and fall back to the original input
if everything was stripped. -/
def cleanPreparationTerms (name : String) : String :=
  let c0 := jsToLower name
  let c1 := jsTrim (removeParens c0)
  let c2 := prepTerms.foldl (fun acc term => removeWordTerm acc term) c1
  let c3 := jsTrim (collapseWs c2)
  let c4 := stripLeadingPunct c3
  let c5 := if strIncludes c4 "," then jsTrim (takeBeforeComma c4) else c4
  let c6 := capitalizeFirst c5
  if c6 = "" then name else c6

/-- A recipe ingredient as produced by the recipe flow: name, raw quantity
expression, unit. -/
structure Ingredient where
  name : String
  quantity : String
  unit : String
deriving DecidableEq, Repr

/-- The `{text, quantity}` record `normalizeIngredientForShopping`
returns. -/
structure ShopEntry where
  text : String
  quantity : Nat
deriving DecidableEq, Repr

/-- The `smallUnits` list of `normalizeIngredientForShopping`. -/
def smallUnits : List String :=
  ["tsp", "teaspoon", "teaspoons", "tbsp", "tablespoon", "tablespoons",
   "pinch", "dash", "to taste", "cup", "cups", "ounce", "ounces", "oz", "fluid ounce", "fl oz"]

/-- The `commonItems` table (term, default quantity); the `unit` field of
the source records is never read, so it is omitted here. -/
def commonItems : List (String × Nat) :=
  [("milk", 1), ("egg", 1), ("butter", 1), ("sugar", 1), ("flour", 1), ("salt", 1),
   ("pepper", 1), ("oil", 1), ("vanilla extract", 1), ("cream", 1), ("yogurt", 1),
   ("pie crust", 1), ("pasta", 1), ("rice", 1), ("red pepper flakes", 1)]

/-- `s.replace(/[^\d.-]/g, '')`. -/
def stripNonNumeric (s : String) : String :=
  String.mk (s.toList.filter (fun c => c.isDigit || c == '.' || c == '-'))

/-- Accumulate a run of decimal digits: value so far, digit count, rest. -/
def digitsAux : Nat → Nat → List Char → Nat × Nat × List Char
  | v, n, [] => (v, n, [])
  | v, n, c :: cs =>
    if c.isDigit then digitsAux (10 * v + (c.toNat - '0'.toNat)) (n + 1) cs
    else (v, n, c :: cs)

/-- Model of JavaScript `parseFloat` on a string already stripped to
`[\d.-]`: an optional leading minus sign, an integer part, and an optional
fraction part; `none` models `NaN` (no digits parsed). Exponents never
arise on such inputs. -/
def parseFloatQ (s : String) : Option ℚ :=
  let cs := s.toList
  let sgn := match cs with
    | '-' :: r => (true, r)
    | _ => (false, cs)
  let ipart := digitsAux 0 0 sgn.2
  let fpart := match ipart.2.2 with
    | '.' :: r => let d := digitsAux 0 0 r; (d.1, d.2.1)
    | _ => (0, 0)
  if ipart.2.1 = 0 && fpart.2 = 0 then none
  else
    let mag : ℚ := (ipart.1 : ℚ) + (fpart.1 : ℚ) / (10 : ℚ) ^ fpart.2
    some (if sgn.1 then -mag else mag)

/-- `quantity.split(sep)` on character lists. -/
def splitOnCharCB (sep : Char) : List Char → List (List Char)
  | [] => [[]]
  | c :: rest =>
    match splitOnCharCB sep rest with
    | [] => [[]]
    | h :: t => if c == sep then [] :: h :: t else (c :: h) :: t

/-- The quantity-parsing block of `normalizeIngredientForShopping`:
ASCII fractions via `split('/')`, the five special Unicode fraction
characters via their hard-coded table, otherwise `parseFloat` of the
stripped string. `parsedQuantity` starts at `0`, and stays `0` when a
fraction branch fails its guards; `none` models `NaN`. -/
def parsedQuantityOf (quantity : String) : Option ℚ :=
  if strIncludes quantity "/" then
    match (splitOnCharCB '/' quantity.toList).map String.mk with
    | [a, b] =>
      match parseFloatQ (stripNonNumeric a), parseFloatQ (stripNonNumeric b) with
      | some num, some den => if den ≠ 0 then some (num / den) else some 0
      | _, _ => some 0
    | _ => some 0
  else if strIncludes quantity "½" then some (if strIncludes quantity "1" then 3/2 else 1/2)
  else if strIncludes quantity "¼" then some (if strIncludes quantity "3" then 3/4 else 1/4)
  else if strIncludes quantity "¾" then some (3/4)
  else if strIncludes quantity "⅓" then some (if strIncludes quantity "2" then 67/100 else 33/100)
  else if strIncludes quantity "⅔" then some (67/100)
  else parseFloatQ (stripNonNumeric quantity)

/-- JavaScript `Math.round` (half rounds up). -/
def jsRound (q : ℚ) : ℤ := ⌊q + 1 / 2⌋

/-- The normalization applied to the parsed quantity: `NaN` or a
non-positive value becomes 1, a value below 1 becomes 1, anything else is
rounded to the nearest whole number. -/
def normalizedQty (q : Option ℚ) : Nat :=
  match q with
  | none => 1
  | some v => if v ≤ 0 then 1 else if v < 1 then 1 else (jsRound v).toNat

/-- The `['lb', 'pound', 'pounds']` weight-unit list. -/
def lbUnits : List String := ["lb", "pound", "pounds"]

/-- The `['whole', 'medium', 'large', 'small', '']` count-unit list. -/
def countUnits : List String := ["whole", "medium", "large", "small", ""]

/-- `normalizeIngredientForShopping` of `recipes.tsx`: common-item
override, then small-unit rule, then quantity parsing feeding the
weight-based and count-based rules, then the default fallback. -/
def normalizeIngredientForShopping (ing : Ingredient) : ShopEntry :=
  let cleanedName := cleanPreparationTerms (jsTrim ing.name)
  let quantity := jsTrim ing.quantity
  let unit := jsToLower (jsTrim ing.unit)
  match commonItems.find? (fun ci => strIncludes (jsToLower cleanedName) ci.1) with
  | some ci => ⟨cleanedName, ci.2⟩
  | none =>
    if smallUnits.contains unit then ⟨cleanedName, 1⟩
    else
      let pq := normalizedQty (parsedQuantityOf quantity)
      if lbUnits.contains unit then ⟨cleanedName ++ " (" ++ quantity ++ " " ++ unit ++ ")", 1⟩
      else if countUnits.contains unit && pq ≥ 1 then ⟨cleanedName, pq⟩
      else ⟨cleanedName, 1⟩

/-- The single-document quantity update performed by `addItem` when a
duplicate is found: bump the quantity of the item at position `i` by one
(reading a falsy stored quantity as 1, as `(existingItem.quantity || 1) +
1` does); every other record is untouched. -/
def setQtyBump : List Item → Nat → List Item
  | [], _ => []
  | it :: rest, 0 => { it with quantity := eff it.quantity + 1 } :: rest
  | it :: rest, n + 1 => it :: setQtyBump rest n

/-- `addItem` of `list.tsx`, as a transformation of the loaded collection:
empty input is ignored; if some loaded item's lower-cased text equals the
trimmed, lower-cased input, that (first such) item's quantity is bumped by
one and nothing is inserted; otherwise a new record with quantity 1 and
the category computed by `categorizeItem` (whose inference response is the
`resp` parameter) is appended. -/
def addItem (resp : AIResp) (items : List Item) (newItem : String) : List Item :=
  if jsTrim newItem = "" then items
  else
    let trimmed := jsTrim newItem
    let lc := jsToLower trimmed
    match items.findIdx? (fun it => jsToLower it.text == lc) with
    | some i => setQtyBump items i
    | none => items ++ [⟨trimmed, 1, categorizeItemL resp trimmed, false⟩]

/-- The dedup key: `data.text.toLowerCase()`. -/
def keyOf (it : Item) : String := jsToLower it.text

/-- Pair each item with its position (the model of its document id). -/
def enumFrom (n : Nat) : List Item → List (Nat × Item)
  | [] => []
  | it :: rest => (n, it) :: enumFrom (n + 1) rest

/-- An item as read into the duplicate-check map: `quantity: data.quantity
|| 1`. -/
def effItem (it : Item) : Item := { it with quantity := eff it.quantity }

/-- The keys of `itemMap` in first-occurrence order (JavaScript object
keys iterate in insertion order). -/
def itemKeysAux : List Item → List String → List String
  | [], _ => []
  | it :: rest, seen =>
    if seen.contains (keyOf it) then itemKeysAux rest seen
    else keyOf it :: itemKeysAux rest (keyOf it :: seen)

/-- Wrapper for `itemKeysAux` starting from no seen keys. -/
def itemKeys (items : List Item) : List String := itemKeysAux items []

/-- The `itemMap` group for one key. -/
def keyGroup (items : List Item) (k : String) : List Item :=
  items.filter (fun it => keyOf it == k)

/-- The summed quantity written to a pass-1 primary: the sum of the
read-back (`|| 1`) quantities of its whole group. -/
def pass1Qty (items : List Item) (k : String) : Nat :=
  ((keyGroup items k).map (fun it => eff it.quantity)).sum

/-- The pass-1 effect on a surviving (first-of-its-key) item: groups of
size one are left alone, larger groups get the summed quantity written to
the primary. -/
def pass1Upd (items : List Item) (it : Item) : Item :=
  if (keyGroup items (keyOf it)).length > 1 then
    { it with quantity := pass1Qty items (keyOf it) }
  else it

/-- Pass 1 of `checkAndMergeDuplicates` over the enumerated snapshot: the
first item of each key group survives (updated by `pass1Upd`), later items
of the same key are deleted. -/
def pass1Aux (items : List Item) : List (Nat × Item) → List String → List (Nat × Item)
  | [], _ => []
  | (n, it) :: rest, seen =>
    if seen.contains (keyOf it) then pass1Aux items rest seen
    else (n, pass1Upd items it) :: pass1Aux items rest (keyOf it :: seen)

/-- The enumerated pass-1 survivors. -/
def pass1E (items : List Item) : List (Nat × Item) := pass1Aux items (enumFrom 0 items) []

/-- `INGREDIENT_COMPONENTS` of `recipes.tsx`, in declaration order. -/
def INGREDIENT_COMPONENTS : List (String × List String) :=
  [("egg", ["egg white", "egg whites", "egg yolk", "egg yolks", "whole egg", "whole eggs"]),
   ("lemon", ["lemon zest", "lemon juice", "lemon peel"]),
   ("lime", ["lime zest", "lime juice", "lime peel"]),
   ("orange", ["orange zest", "orange juice", "orange peel"]),
   ("onion", ["onion top", "onion tops", "green onion", "green onions"]),
   ("milk", ["milk foam", "milk froth"]),
   ("tomato", ["tomato paste", "tomato puree", "tomato sauce", "tomato juice"])]

/-- `areRelatedComponents` of `recipes.tsx`: two texts are related when,
for some base ingredient, each one contains one of its component phrases
or contains the base name itself. -/
def relatedB (a b : String) : Bool :=
  INGREDIENT_COMPONENTS.any (fun sc =>
    (sc.2.any (fun comp => strIncludes (jsToLower a) comp) || strIncludes (jsToLower a) sc.1) &&
    (sc.2.any (fun comp => strIncludes (jsToLower b) comp) || strIncludes (jsToLower b) sc.1))

/-- `Object.values(itemMap).flat()`: every snapshot item (including the
ones pass 1 marks for deletion), grouped by key in first-occurrence key
order, with the read-back quantity; positions are kept as identities. -/
def allItemsOf (items : List Item) : List (Nat × Item) :=
  ((itemKeys items).map (fun k =>
    ((enumFrom 0 items).filter (fun p => keyOf p.2 == k)).map (fun p => (p.1, effItem p.2)))).flatten

/-- The grouping loop of pass 2: scan the items in order; an unprocessed
item seeds a group made of itself and every later unprocessed item related
to it; groups of size one are discarded and leave nothing processed. -/
def pass2Aux : List (Nat × Item) → List Nat → List (List (Nat × Item))
  | [], _ => []
  | (i, it) :: rest, processed =>
    if processed.contains i then pass2Aux rest processed
    else
      let grp := (i, it) :: rest.filter
        (fun p => !(processed.contains p.1) && relatedB it.text p.2.text)
      if grp.length > 1 then grp :: pass2Aux rest (processed ++ grp.map Prod.fst)
      else pass2Aux rest processed

/-- The component groups found by pass 2 of `checkAndMergeDuplicates`. -/
def pass2Groups (items : List Item) : List (List (Nat × Item)) :=
  pass2Aux (allItemsOf items) []

/-- Stable insertion for `sortByLen` (ties keep the earlier element
first, as the stable `Array.prototype.sort` does). -/
def insertByLen (a : Item) : List Item → List Item
  | [] => [a]
  | b :: bs => if a.text.length ≤ b.text.length then a :: b :: bs else b :: insertByLen a bs

/-- `relatedItems.sort((a, b) => a.text.length - b.text.length)`. -/
def sortByLen : List Item → List Item
  | [] => []
  | a :: as => insertByLen a (sortByLen as)

/-- The inner source-table loop of the generic-name computation: for each
base ingredient whose name occurs in the component's text, either the
component is exactly that base name (then its text is taken and the loop
breaks) or the base name replaces the current candidate when strictly
shorter. -/
def updateNameSrc (compText : String) : List (String × List String) → String → String
  | [], gn => gn
  | (src, _) :: rest, gn =>
    if strIncludes (jsToLower compText) src then
      if jsToLower compText == src then compText
      else if gn.length > src.length then updateNameSrc compText rest (capitalizeFirst src)
      else updateNameSrc compText rest gn
    else updateNameSrc compText rest gn

/-- The generic-name computation over the sorted group: start from the
shortest member's text (`relatedItems[0].text` after sorting) and run the
source-table loop over every member in sorted order. -/
def genericNameOf : List Item → String
  | [] => ""
  | s0 :: rest =>
    (s0 :: rest).foldl (fun gn comp => updateNameSrc comp.text INGREDIENT_COMPONENTS gn) s0.text

/-- The category selected for the merged record:
`relatedItems[0].doc.category` after sorting. -/
def headCat : List Item → String
  | [] => ""
  | s0 :: _ => s0.category

/-- The record synthesized for one pass-2 group: sort the group by text
length; the name is `genericNameOf` of the sorted group with the
`(for recipe components)` marker appended for groups of more than one; the
quantity is the sum of the members' read-back quantities; the category is
the post-sort first member's (`|| 'Other'`). -/
def mergedItem (g : List Item) : Item :=
  { text :=
      if g.length > 1 then genericNameOf (sortByLen g) ++ " (for recipe components)"
      else genericNameOf (sortByLen g),
    quantity := ((sortByLen g).map (fun it => it.quantity)).sum,
    category := catEff (headCat (sortByLen g)),
    completed := false }

/-- The positions deleted by pass 2 (every member of every group). -/
def deletedIdx (items : List Item) : List Nat :=
  ((pass2Groups items).map (fun g => g.map Prod.fst)).flatten

/-- The records pass 2 inserts (one per group, in group order). -/
def newItems (items : List Item) : List Item :=
  (pass2Groups items).map (fun g => mergedItem (g.map Prod.snd))

/-- `checkAndMergeDuplicates` of `recipes.tsx` as a transformation of the
collection: pass-1 survivors that pass 2 did not delete, in snapshot
order, followed by the records pass 2 synthesized. -/
def checkAndMergeDuplicates (items : List Item) : List Item :=
  ((pass1E items).filter (fun p => !((deletedIdx items).contains p.1))).map Prod.snd
    ++ newItems items

/-- Claim C1 counterexample: on `"chocolate milk"` the exact tiers fail
and the spec's tier 4 would return `Dairy`, yet `categorizeItem` of
`list.tsx` hands the text to the inference collaborator (so the collaborator's
answer, here `"Frozen"`, comes back instead of the tier-4 result), and
`categorizeByRules` of `recipes.tsx` returns the catch-all. -/
theorem classifier_tier34_missing_cex :
    specPartialTier FOOD_CATEGORIES_L "chocolate milk" = some "Dairy" ∧
    categorizeItemL (.ok (some "Frozen")) "chocolate milk" = "Frozen" ∧
    categorizeByRulesR "chocolate milk" = "Other" ∧
    ("Frozen" : String) ≠ "Dairy" := by
  refine ⟨?_, ?_, ?_, ?_⟩ <;> decide

/-- Claim C1 (corrected): when both exact local tiers fail there are no
further local tiers — `categorizeItem` of `list.tsx` returns exactly the
wrapped collaborator verdict, `categorizeByRules` of `recipes.tsx` returns
the catch-all, and the recipes-side `askAIForCategory` enters its request
loop directly. -/
theorem classifier_two_tier_delegation (t : String) :
    (exactMatchCategoryL t = none →
      ∀ resp, categorizeItemL resp t = askAIForCategoryL resp) ∧
    (exactMatchCategoryR t = none → categorizeByRulesR t = "Other") ∧
    (exactMatchCategoryR t = none →
      ∀ oracle, askAIForCategoryR oracle t = askLoopR oracle 0 MAX_RETRIES) := by
  refine ⟨fun h resp => ?_, fun h => ?_, fun h oracle => ?_⟩
  · simp [categorizeItemL, h]
  · simp [categorizeByRulesR, h]
  · simp [askAIForCategoryR, h]

/-- Witness for `classifier_two_tier_delegation` at the concrete input
`"chocolate milk"`. -/
theorem classifier_two_tier_delegation_witness :
    categorizeItemL (.ok (some "Frozen")) "chocolate milk"
        = askAIForCategoryL (.ok (some "Frozen")) ∧
    categorizeByRulesR "chocolate milk" = "Other" :=
  ⟨(classifier_two_tier_delegation "chocolate milk").1 (by decide) (.ok (some "Frozen")),
   (classifier_two_tier_delegation "chocolate milk").2.1 (by decide)⟩

/-- Claim C6 (confirmed): with the collaborator answering every request
with a rate-limit status, `askAIForCategory` of `recipes.tsx` on a locally
unmatched text returns the catch-all after exactly 3 requests, the waits
before the second and third requests being 2000 ms and 4000 ms (doubling,
hence non-decreasing). -/
theorem rate_limit_three_attempts (t : String) (h : exactMatchCategoryR t = none) :
    askAIForCategoryR (fun _ => .httpErr 429) t = ⟨"Other", 3, [0, 2000, 4000]⟩ := by
  simp [askAIForCategoryR, h]
  decide

/-- Witness for `rate_limit_three_attempts` at the spec's concrete input
`"unrecognized item"`. -/
theorem rate_limit_three_attempts_witness :
    askAIForCategoryR (fun _ => .httpErr 429) "unrecognized item"
      = ⟨"Other", 3, [0, 2000, 4000]⟩ :=
  rate_limit_three_attempts "unrecognized item" (by decide)

/-- Claim C7 counterexample: the `list.tsx` wrapper validates
case-insensitively, not by exact string match — the label `"produce"` is
not a taxonomy member under exact comparison, yet the wrapper returns
`Produce` rather than the catch-all. -/
theorem label_validation_case_insensitive_cex :
    catNames.contains "produce" = false ∧
    askAIForCategoryL (.ok (some "produce")) = "Produce" ∧
    ("Produce" : String) ≠ "Other" := by
  refine ⟨?_, ?_, ?_⟩ <;> decide

/-- Claim C7 (corrected): the `recipes.tsx` wrapper validates by exact
membership — any nonempty label whose trimmed form is not a category name
(e.g. `"Vegetables"`) yields the catch-all, and a missing or empty label
is treated as a format error (retried, then the catch-all); the `list.tsx`
wrapper yields the catch-all for missing, empty and case-insensitively
unmatched labels, but maps a label differing from a category name only in
case (e.g. `"produce"`) to that category instead of the catch-all. -/
theorem label_validation_amended :
    (∀ s : String, s ≠ "" → catNames.contains (jsTrim s) = false →
      (askLoopR (fun _ => .ok (some s)) 0 MAX_RETRIES).result = "Other") ∧
    askLoopR (fun _ => .ok (some "Vegetables")) 0 MAX_RETRIES = ⟨"Other", 1, [0]⟩ ∧
    askLoopR (fun _ => .ok none) 0 MAX_RETRIES = ⟨"Other", 3, [0, 2000, 4000]⟩ ∧
    askLoopR (fun _ => .ok (some "")) 0 MAX_RETRIES = ⟨"Other", 3, [0, 2000, 4000]⟩ ∧
    askAIForCategoryL (.ok none) = "Other" ∧
    askAIForCategoryL (.ok (some "")) = "Other" ∧
    askAIForCategoryL (.ok (some "Vegetables")) = "Other" ∧
    askAIForCategoryL (.ok (some "produce")) = "Produce" := by
  refine ⟨fun s h1 h2 => ?_, ?_, ?_, ?_, ?_, ?_, ?_, ?_⟩
  · simp at h2
    simp [askLoopR, MAX_RETRIES, h1, h2]
  all_goals decide

/-- Witness for `label_validation_amended` at the spec's concrete label
`"Vegetables"`. -/
theorem label_validation_amended_witness :
    (askLoopR (fun _ => .ok (some "Vegetables")) 0 MAX_RETRIES).result = "Other" :=
  label_validation_amended.1 "Vegetables" (by decide) (by decide)

/-- Claim C8 counterexample: `"whole milk"` is not a keyword of any
category (in particular not of `Dairy`), so tier 2 does not fire; the
result of `classify` is whatever the inference collaborator answers
(here `"Snacks"`), not a tier-2 `Dairy`. -/
theorem whole_milk_not_tier2_cex :
    exactMatchCategoryL "whole milk" = none ∧
    (∀ p ∈ FOOD_CATEGORIES_L, p.2.contains "whole milk" = false) ∧
    categorizeItemL (.ok (some "Snacks")) "whole milk" = "Snacks" ∧
    ("Snacks" : String) ≠ "Dairy" := by
  refine ⟨?_, ?_, ?_, ?_⟩ <;> decide

/-- Claim C8 (corrected): `classify("whole milk")` matches no compound
term and no keyword exactly, and therefore returns the wrapped inference
collaborator's verdict rather than a local `Dairy`. -/
theorem whole_milk_delegates :
    exactMatchCategoryL "whole milk" = none ∧
    ∀ resp, categorizeItemL resp "whole milk" = askAIForCategoryL resp := by
  refine ⟨by decide, fun resp => ?_⟩
  simp [categorizeItemL, show exactMatchCategoryL "whole milk" = none from by decide]

/-- Claim C9 counterexample: on the spec's input the engine does not
produce `{text: "Onion", quantity: 1}` — `cleanPreparationTerms` strips
only the preparation words, not the leading amount (`"2 cups"` is not in
`prepTerms`), so the text keeps the embedded measure. -/
theorem small_unit_rule_cex :
    normalizeIngredientForShopping ⟨"2 cups finely chopped onion", "2", "cup"⟩
      ≠ ⟨"Onion", 1⟩ := by
  decide

/-- Claim C9 (corrected): on `{name: "2 cups finely chopped onion",
quantity: "2", unit: "cup"}` the small-unit rule fires (`"cup"` is in the
too-small-to-shop-by set) and `"finely"`/`"chopped"` are stripped, but the
amount embedded in the name survives, so the result is
`{text: "2 cups onion", quantity: 1}`. -/
theorem small_unit_rule_amended :
    smallUnits.contains "cup" = true ∧
    cleanPreparationTerms "2 cups finely chopped onion" = "2 cups onion" ∧
    normalizeIngredientForShopping ⟨"2 cups finely chopped onion", "2", "cup"⟩
      = ⟨"2 cups onion", 1⟩ := by
  refine ⟨?_, ?_, ?_⟩ <;> decide

/-- Every compound-term entry maps to a taxonomy member. -/
theorem compound_vals_mem : ∀ p ∈ COMPOUND_TERMS, p.2 ∈ catNames := by decide

/-- Every `list.tsx` table key is a taxonomy member. -/
theorem tblL_keys_mem : ∀ p ∈ FOOD_CATEGORIES_L, p.1 ∈ catNames := by decide

/-- Every `recipes.tsx` table key is a taxonomy member. -/
theorem tblR_keys_mem : ∀ p ∈ FOOD_CATEGORIES_R, p.1 ∈ catNames := by decide

/-- Whatever `exactMatchCategory` returns comes from the static tables,
hence is a taxonomy member. -/
theorem exactMatchCategoryWith_mem (tbl : List (String × List String))
    (htbl : ∀ p ∈ tbl, p.1 ∈ catNames) (t c : String)
    (h : exactMatchCategoryWith tbl t = some c) : c ∈ catNames := by
  simp only [exactMatchCategoryWith] at h
  split at h
  next p hfind =>
    injection h with h
    subst h
    exact compound_vals_mem p (List.mem_of_find?_eq_some hfind)
  next =>
    split at h
    next q hfind2 =>
      injection h with h
      subst h
      exact htbl q (List.mem_of_find?_eq_some hfind2)
    next => exact absurd h (by simp)

/-- The `list.tsx` wrapper only ever returns taxonomy members. -/
theorem askAIForCategoryL_mem (resp : AIResp) : askAIForCategoryL resp ∈ catNames := by
  have hother : ("Other" : String) ∈ catNames := by decide
  cases resp with
  | httpErr s => exact hother
  | netErr => exact hother
  | ok t =>
    cases t with
    | none => exact hother
    | some s =>
      simp only [askAIForCategoryL]
      by_cases hs : s = ""
      · simp only [if_pos hs]; exact hother
      · simp only [if_neg hs]
        cases hfind : catNames.find? (fun cat => jsToLower (jsTrim s) == jsToLower cat) with
        | some cat => exact List.mem_of_find?_eq_some hfind
        | none => exact hother

/-- The `recipes.tsx` retry loop only ever returns taxonomy members. -/
theorem askLoopR_mem (oracle : Nat → AIResp) :
    ∀ (fuel retries : Nat), (askLoopR oracle retries fuel).result ∈ catNames := by
  have hother : ("Other" : String) ∈ catNames := by decide
  intro fuel
  induction fuel with
  | zero => intro retries; exact hother
  | succ n ih =>
    intro retries
    simp only [askLoopR]
    cases oracle retries with
    | httpErr status =>
      by_cases h1 : status = 429
      · simp only [if_pos h1]; exact ih (retries + 1)
      · simp only [if_neg h1]
        by_cases h2 : retries + 1 ≥ MAX_RETRIES
        · simp only [if_pos h2]; exact hother
        · simp only [if_neg h2]; exact ih (retries + 1)
    | netErr =>
      by_cases h2 : retries + 1 ≥ MAX_RETRIES
      · simp only [if_pos h2]; exact hother
      · simp only [if_neg h2]; exact ih (retries + 1)
    | ok t =>
      cases t with
      | none =>
        by_cases h2 : retries + 1 ≥ MAX_RETRIES
        · simp only [if_pos h2]; exact hother
        · simp only [if_neg h2]; exact ih (retries + 1)
      | some s =>
        by_cases hs : s = ""
        · simp only [if_pos hs]
          by_cases h2 : retries + 1 ≥ MAX_RETRIES
          · simp only [if_pos h2]; exact hother
          · simp only [if_neg h2]; exact ih (retries + 1)
        · simp only [if_neg hs]
          by_cases hc : catNames.contains (jsTrim s) = true
          · simp only [if_pos hc]
            simp only [List.contains_eq_any_beq, List.any_eq_true] at hc
            obtain ⟨cat, hcat, hbeq⟩ := hc
            have : jsTrim s = cat := by simpa using hbeq
            show jsTrim s ∈ catNames
            rw [this]
            exact hcat
          · simp only [if_neg hc]; exact hother

/-- Claim C5 (confirmed): for every input text and every collaborator
behavior (success, malformed body, any HTTP status including rate limits,
network error — and on the recipes side, any per-attempt behavior),
`classify` returns a member of the nine-category taxonomy; the embedding
is total, reflecting that every failure path is caught. -/
theorem classify_always_taxonomy (resp : AIResp) (oracle : Nat → AIResp) (t : String) :
    categorizeItemL resp t ∈ catNames ∧ (askAIForCategoryR oracle t).result ∈ catNames := by
  constructor
  · unfold categorizeItemL
    cases hx : exactMatchCategoryL t with
    | some c => exact exactMatchCategoryWith_mem _ tblL_keys_mem t c hx
    | none => exact askAIForCategoryL_mem resp
  · unfold askAIForCategoryR
    cases hx : exactMatchCategoryR t with
    | some c => exact exactMatchCategoryWith_mem _ tblR_keys_mem t c hx
    | none => exact askLoopR_mem oracle MAX_RETRIES 0

/-- `setQtyBump` never changes the collection's size. -/
theorem setQtyBump_length : ∀ (l : List Item) (i : Nat), (setQtyBump l i).length = l.length := by
  intro l
  induction l with
  | nil => intro i; rfl
  | cons it rest ih =>
    intro i
    cases i with
    | zero => rfl
    | succ n => simp [setQtyBump, ih n]

/-- `setQtyBump` leaves every other position untouched. -/
theorem setQtyBump_get_ne :
    ∀ (l : List Item) (i j : Nat), j ≠ i → (setQtyBump l i)[j]? = l[j]? := by
  intro l
  induction l with
  | nil => intro i j _; rfl
  | cons it rest ih =>
    intro i j hj
    cases i with
    | zero =>
      cases j with
      | zero => exact absurd rfl hj
      | succ m => simp [setQtyBump]
    | succ n =>
      cases j with
      | zero => simp [setQtyBump]
      | succ m =>
        simp only [setQtyBump, List.getElem?_cons_succ]
        exact ih n m (fun h => hj (by rw [h]))

/-- `setQtyBump` bumps the read-back quantity at the chosen position by
one and changes nothing else of that record. -/
theorem setQtyBump_get_eq :
    ∀ (l : List Item) (i : Nat) (a : Item), l[i]? = some a →
      (setQtyBump l i)[i]? = some { a with quantity := eff a.quantity + 1 } := by
  intro l
  induction l with
  | nil => intro i a h; simp at h
  | cons it rest ih =>
    intro i a h
    cases i with
    | zero =>
      simp only [List.getElem?_cons_zero, Option.some.injEq] at h
      subst h
      simp [setQtyBump]
    | succ n =>
      simp only [List.getElem?_cons_succ] at h
      simpa [setQtyBump] using ih n a h

/-- Claim C10 (confirmed): when `addItem` runs on a non-empty input whose
trimmed, lower-cased text already occurs (case-insensitively) in the
loaded collection, no record is inserted (the size is unchanged); the
first matching item's quantity grows by exactly one, its text, category
and completed flag are untouched, and every other record is untouched. -/
theorem addItem_duplicate_increments (resp : AIResp) (items : List Item) (raw : String)
    (i : Nat) (a : Item)
    (hne : jsTrim raw ≠ "")
    (hfind : items.findIdx? (fun it => jsToLower it.text == jsToLower (jsTrim raw)) = some i)
    (hget : items[i]? = some a) (hq : 1 ≤ a.quantity) :
    (addItem resp items raw).length = items.length ∧
    (addItem resp items raw)[i]? = some ⟨a.text, a.quantity + 1, a.category, a.completed⟩ ∧
    ∀ j, j ≠ i → (addItem resp items raw)[j]? = items[j]? := by
  have haddeq : addItem resp items raw = setQtyBump items i := by
    unfold addItem
    rw [if_neg hne]
    simp only [hfind]
  rw [haddeq]
  refine ⟨setQtyBump_length items i, ?_, fun j hj => setQtyBump_get_ne items i j hj⟩
  have heff : eff a.quantity = a.quantity := by
    unfold eff
    rw [if_neg (by omega)]
  rw [setQtyBump_get_eq items i a hget, heff]

/-- Witness for `addItem_duplicate_increments`: adding `" apple "` to a
collection already holding `"Apple"` with quantity 2 updates that record
to quantity 3 in place. -/
theorem addItem_duplicate_increments_witness :
    (addItem (.ok none) [⟨"Apple", 2, "Produce", false⟩] " apple ")[0]?
      = some ⟨"Apple", 3, "Produce", false⟩ :=
  (addItem_duplicate_increments (.ok none) [⟨"Apple", 2, "Produce", false⟩] " apple "
    0 ⟨"Apple", 2, "Produce", false⟩ (by decide) (by decide) (by decide) (by decide)).2.1

/-- `pass1Upd` never changes an item's dedup key. -/
theorem keyOf_pass1Upd (items : List Item) (it : Item) :
    keyOf (pass1Upd items it) = keyOf it := by
  unfold pass1Upd
  split
  · rfl
  · rfl

/-- `pass1Upd` lifted to enumerated items. -/
def pass1UpdG (items : List Item) (p : Nat × Item) : Nat × Item := (p.1, pass1Upd items p.2)

/-- Once a key has been seen, the pass-1 scan emits no further survivor
with that key. -/
theorem pass1Aux_filter_of_seen (items : List Item) (k : String) :
    ∀ (l : List (Nat × Item)) (seen : List String), seen.contains k = true →
      (pass1Aux items l seen).filter (fun p => keyOf p.2 == k) = [] := by
  intro l
  induction l with
  | nil => intro seen _; rfl
  | cons p rest ih =>
    intro seen hseen
    obtain ⟨n, it⟩ := p
    simp only [pass1Aux]
    by_cases hc : seen.contains (keyOf it) = true
    · rw [if_pos hc]
      exact ih seen hseen
    · rw [if_neg hc]
      have hkk : (keyOf (pass1UpdG items (n, it)).2 == k) = false := by
        show (keyOf (pass1Upd items it) == k) = false
        rw [keyOf_pass1Upd]
        cases hbe : keyOf it == k
        · rfl
        · have heq : keyOf it = k := by simpa using hbe
          rw [heq] at hc
          exact absurd hseen hc
      simp only [List.filter_cons]
      show (if (keyOf (pass1Upd items it) == k) = true then _ else _) = _
      rw [if_neg (by simpa using hkk)]
      refine ih (keyOf it :: seen) ?_
      simp only [List.contains_cons]
      simp only [List.contains_eq_any_beq] at hseen ⊢
      simp [hseen]

/-- The pass-1 survivors with key `k` are exactly the first snapshot item
with that key (if any), carrying the pass-1 update. -/
theorem pass1Aux_filter_key (items : List Item) (k : String) :
    ∀ (l : List (Nat × Item)) (seen : List String), seen.contains k = false →
      (pass1Aux items l seen).filter (fun p => keyOf p.2 == k)
        = ((l.filter (fun p => keyOf p.2 == k)).head?.map (pass1UpdG items)).toList := by
  intro l
  induction l with
  | nil => intro seen _; rfl
  | cons p rest ih =>
    intro seen hseen
    obtain ⟨n, it⟩ := p
    simp only [pass1Aux]
    by_cases hc : seen.contains (keyOf it) = true
    · rw [if_pos hc]
      have hkk : (keyOf it == k) = false := by
        cases hbe : keyOf it == k
        · rfl
        · have heq : keyOf it = k := by simpa using hbe
          rw [heq] at hc
          rw [hc] at hseen
          exact absurd hseen (by simp)
      rw [List.filter_cons, if_neg (show ¬((keyOf it == k) = true) by simp [hkk])]
      exact ih seen hseen
    · rw [if_neg hc]
      by_cases hkk : (keyOf it == k) = true
      · have hk : keyOf it = k := by simpa using hkk
        have hkup : (keyOf (pass1Upd items it) == k) = true := by
          rw [keyOf_pass1Upd]; exact hkk
        rw [List.filter_cons, List.filter_cons]
        rw [if_pos (by simpa using hkup), if_pos (by simpa using hkk)]
        rw [pass1Aux_filter_of_seen items k rest (keyOf it :: seen)
          (by simp [List.contains_cons, hk])]
        rfl
      · have hkup : (keyOf (pass1Upd items it) == k) = false := by
          rw [keyOf_pass1Upd]
          simpa using hkk
        rw [List.filter_cons, List.filter_cons]
        rw [if_neg (by simp [hkup]), if_neg (by simp [hkk])]
        refine ih (keyOf it :: seen) ?_
        have hne : ¬(k = keyOf it) := by
          intro heq
          rw [← heq] at hkk
          simp at hkk
        simp only [List.contains_cons]
        simp at hseen
        simp [hne, hseen]

/-- Filtering the enumerated snapshot on the item field and projecting
back gives the plain filter. -/
theorem enumFrom_filter_map_snd (f : Item → Bool) :
    ∀ (X : List Item) (n : Nat),
      ((enumFrom n X).filter (fun p => f p.2)).map Prod.snd = X.filter f := by
  intro X
  induction X with
  | nil => intro n; rfl
  | cons it rest ih =>
    intro n
    simp only [enumFrom, List.filter_cons]
    by_cases hf : f it = true
    · simp only [hf, if_pos]
      simp [ih (n + 1)]
    · simp only [hf]
      simp [ih (n + 1)]

/-- Filtering a projected list is projecting the filtered list. -/
theorem filter_map_snd (q : Item → Bool) (l : List (Nat × Item)) :
    (l.map Prod.snd).filter q = (l.filter (fun p => q p.2)).map Prod.snd := by
  induction l with
  | nil => rfl
  | cons p rest ih =>
    simp only [List.map_cons, List.filter_cons]
    by_cases hq : q p.2 = true
    · simp [hq, ih]
    · simp [hq, ih]

/-- Claim C4 (confirmed): in the exact-duplicate pass, for every key whose
group has more than one member, exactly one record with that key survives
— the group's first (earliest-created) member — its quantity is the sum of
the whole group's quantities, and every other group member is gone; and
the spec's concrete example `{Apple, 1} + {apple, 2}` consolidates to one
`Apple` record of quantity 3. -/
theorem exact_duplicate_pass_merge (X : List Item) (k : String) (a : Item) (t : List Item)
    (hgrp : keyGroup X k = a :: t) (ht : t ≠ [])
    (hq : ∀ x ∈ keyGroup X k, 1 ≤ x.quantity) :
    ((pass1E X).map Prod.snd).filter (fun it => keyOf it == k)
      = [{ a with quantity := ((keyGroup X k).map (fun x => x.quantity)).sum }] ∧
    checkAndMergeDuplicates [⟨"Apple", 1, "Produce", false⟩, ⟨"apple", 2, "Produce", false⟩]
      = [⟨"Apple", 3, "Produce", false⟩] := by
  refine ⟨?_, by decide⟩
  rw [filter_map_snd, pass1E,
    pass1Aux_filter_key X k (enumFrom 0 X) [] (by rfl)]
  cases hfe : (enumFrom 0 X).filter (fun p => keyOf p.2 == k) with
  | nil =>
    exfalso
    have hsnd := enumFrom_filter_map_snd (fun it => keyOf it == k) X 0
    rw [hfe] at hsnd
    rw [show X.filter (fun it => keyOf it == k) = keyGroup X k from rfl, hgrp] at hsnd
    simp at hsnd
  | cons p rest' =>
    have hsnd := enumFrom_filter_map_snd (fun it => keyOf it == k) X 0
    rw [hfe] at hsnd
    rw [show X.filter (fun it => keyOf it == k) = keyGroup X k from rfl, hgrp] at hsnd
    simp only [List.map_cons, List.cons.injEq] at hsnd
    obtain ⟨hpa, _⟩ := hsnd
    simp only [Option.map_some, Option.toList_some, List.head?_cons]
    have hka : keyOf a = k := by
      have hmem : a ∈ keyGroup X k := by rw [hgrp]; exact List.mem_cons_self a t
      have := List.of_mem_filter hmem
      simpa using this
    have hupd : pass1Upd X p.2 = { a with quantity := ((keyGroup X k).map (fun x => x.quantity)).sum } := by
      rw [hpa]
      unfold pass1Upd
      rw [hka, if_pos]
      · unfold pass1Qty
        have hmapeq : (keyGroup X k).map (fun it => eff it.quantity)
            = (keyGroup X k).map (fun x => x.quantity) := by
          refine List.map_congr_left ?_
          intro x hx
          have hx1 := hq x hx
          unfold eff
          rw [if_neg (by omega)]
        rw [hmapeq]
      · rw [hgrp]
        have : 0 < t.length := List.length_pos.mpr ht
        simp only [List.length_cons]
        omega
    simp [pass1UpdG, hupd]

/-- Witness for `exact_duplicate_pass_merge` at the two-record `Apple` /
`apple` collection. -/
theorem exact_duplicate_pass_merge_witness :
    ((pass1E [⟨"Apple", 1, "Produce", false⟩, ⟨"apple", 2, "Produce", false⟩]).map
        Prod.snd).filter (fun it => keyOf it == "apple")
      = [⟨"Apple", 3, "Produce", false⟩] := by
  have h := (exact_duplicate_pass_merge
    [⟨"Apple", 1, "Produce", false⟩, ⟨"apple", 2, "Produce", false⟩]
    "apple" ⟨"Apple", 1, "Produce", false⟩ [⟨"apple", 2, "Produce", false⟩]
    (by decide) (by decide) (by decide)).1
  simpa using h

/-- Inserting into the length-sorted list is a permutation. -/
theorem insertByLen_perm (a : Item) :
    ∀ (l : List Item), (insertByLen a l).Perm (a :: l) := by
  intro l
  induction l with
  | nil => simp [insertByLen]
  | cons b bs ih =>
    simp only [insertByLen]
    split
    · exact List.Perm.refl _
    · exact ((ih.cons b).trans (List.Perm.swap a b bs))

/-- `sortByLen` permutes its input. -/
theorem sortByLen_perm : ∀ (l : List Item), (sortByLen l).Perm l := by
  intro l
  induction l with
  | nil => simp [sortByLen]
  | cons a as ih =>
    simp only [sortByLen]
    exact (insertByLen_perm a (sortByLen as)).trans (ih.cons a)

/-- The collection used in the component-merge example: the spec's
egg-white / egg-yolk pair, with distinct categories so the category choice
is observable. -/
def eggPair : List Item :=
  [⟨"egg white", 2, "Dairy", false⟩, ⟨"egg yolk", 2, "Pantry", false⟩]

/-- Claim C3 counterexample: merging `{egg white, 2}` and `{egg yolk, 2}`
does synthesize one record of quantity 4 with both originals deleted, but
its display name is `"Egg (for recipe components)"` — not the shortest
member's text `"egg yolk"` (nor any member's text) — and its category is
the `"Pantry"` of the post-sort first member, not the `"Dairy"` of the
first group member. -/
theorem component_merge_name_category_cex :
    checkAndMergeDuplicates eggPair
      = [⟨"Egg (for recipe components)", 4, "Pantry", false⟩] ∧
    ("Egg (for recipe components)" : String) ≠ "egg yolk" ∧
    ("Egg (for recipe components)" : String) ≠ "egg white" ∧
    ("Pantry" : String) ≠ "Dairy" := by
  refine ⟨?_, ?_, ?_, ?_⟩ <;> decide

/-- Claim C3 (corrected): every pass-2 group of more than one item is
replaced by exactly one synthesized record — added to the collection while
every group member's position is deleted — whose quantity is the sum of
the group's (read-back) quantities, whose display name is the
generic-name computation over the length-sorted group with the
`(for recipe components)` marker appended, and whose category is the
post-sort first (shortest) member's; on the egg example this yields one
`Egg (for recipe components)` record of quantity 4 and category of the
shorter member, with both originals deleted. -/
theorem component_merge_shape (X : List Item) (g : List (Nat × Item))
    (hg : g ∈ pass2Groups X) (hlen : 1 < (g.map Prod.snd).length) :
    mergedItem (g.map Prod.snd) ∈ newItems X ∧
    (∀ p ∈ g, p.1 ∈ deletedIdx X) ∧
    (mergedItem (g.map Prod.snd)).quantity
      = ((g.map Prod.snd).map (fun it => it.quantity)).sum ∧
    (mergedItem (g.map Prod.snd)).text
      = genericNameOf (sortByLen (g.map Prod.snd)) ++ " (for recipe components)" ∧
    (mergedItem (g.map Prod.snd)).category = catEff (headCat (sortByLen (g.map Prod.snd))) ∧
    checkAndMergeDuplicates eggPair
      = [⟨"Egg (for recipe components)", 4, "Pantry", false⟩] := by
  refine ⟨?_, ?_, ?_, ?_, rfl, by decide⟩
  · exact List.mem_map_of_mem (fun g => mergedItem (g.map Prod.snd)) hg
  · intro p hp
    unfold deletedIdx
    rw [List.mem_flatten]
    exact ⟨g.map Prod.fst, List.mem_map_of_mem _ hg, List.mem_map_of_mem _ hp⟩
  · show ((sortByLen (g.map Prod.snd)).map (fun it => it.quantity)).sum = _
    exact List.Perm.sum_eq ((sortByLen_perm (g.map Prod.snd)).map (fun it => it.quantity))
  · show (if (g.map Prod.snd).length > 1 then _ else _) = _
    rw [if_pos hlen]

/-- Witness for `component_merge_shape` at the concrete egg-pair group. -/
theorem component_merge_shape_witness :
    mergedItem ([((0 : Nat), (⟨"egg white", 2, "Dairy", false⟩ : Item)),
        ((1 : Nat), (⟨"egg yolk", 2, "Pantry", false⟩ : Item))].map Prod.snd)
      ∈ newItems eggPair :=
  (component_merge_shape eggPair
    [(0, ⟨"egg white", 2, "Dairy", false⟩), (1, ⟨"egg yolk", 2, "Pantry", false⟩)]
    (by decide) (by decide)).1

/-- Members of the enumerated snapshot are snapshot items. -/
theorem mem_enumFrom :
    ∀ (l : List Item) (n : Nat) (p : Nat × Item), p ∈ enumFrom n l → p.2 ∈ l := by
  intro l
  induction l with
  | nil => intro n p hp; simp [enumFrom] at hp
  | cons it rest ih =>
    intro n p hp
    simp only [enumFrom, List.mem_cons] at hp
    cases hp with
    | inl h => rw [h]; exact List.mem_cons_self it rest
    | inr h => exact List.mem_cons_of_mem it (ih (n + 1) p h)

/-- Every entry of `Object.values(itemMap).flat()` carries the text of
some snapshot item. -/
theorem allItemsOf_text (X : List Item) (p : Nat × Item) (hp : p ∈ allItemsOf X) :
    ∃ a ∈ X, p.2.text = a.text := by
  unfold allItemsOf at hp
  rw [List.mem_flatten] at hp
  obtain ⟨sub, hsub, hpsub⟩ := hp
  rw [List.mem_map] at hsub
  obtain ⟨k, _, hk⟩ := hsub
  rw [← hk] at hpsub
  rw [List.mem_map] at hpsub
  obtain ⟨q, hq, hpq⟩ := hpsub
  rw [List.mem_filter] at hq
  refine ⟨q.2, mem_enumFrom X 0 q hq.1, ?_⟩
  rw [← hpq]
  rfl

/-- When no two entries are component-related, the pass-2 scan finds no
group. -/
theorem pass2Aux_eq_nil :
    ∀ (l : List (Nat × Item)) (processed : List Nat),
      (∀ p ∈ l, ∀ q ∈ l, relatedB p.2.text q.2.text = false) →
      pass2Aux l processed = [] := by
  intro l
  induction l with
  | nil => intro processed _; rfl
  | cons p rest ih =>
    intro processed h
    obtain ⟨i, it⟩ := p
    simp only [pass2Aux]
    have hsub : ∀ p ∈ rest, ∀ q ∈ rest, relatedB p.2.text q.2.text = false := by
      intro x hx y hy
      exact h x (List.mem_cons_of_mem _ hx) y (List.mem_cons_of_mem _ hy)
    by_cases hc : processed.contains i = true
    · rw [if_pos hc]
      exact ih processed hsub
    · rw [if_neg hc]
      have hfil : rest.filter
          (fun p => !(processed.contains p.1) && relatedB it.text p.2.text) = [] := by
        rw [List.filter_eq_nil_iff]
        intro q hq
        have hrel := h (i, it) (List.mem_cons_self _ _) q (List.mem_cons_of_mem _ hq)
        simp [hrel]
      rw [hfil]
      simp only [List.length_cons, List.length_nil]
      rw [if_neg (by omega)]
      exact ih processed hsub

/-- `pass1Upd` never changes an item's text. -/
theorem text_pass1Upd (items : List Item) (it : Item) :
    (pass1Upd items it).text = it.text := by
  unfold pass1Upd
  split
  · rfl
  · rfl

/-- Every pass-1 survivor carries the text of some scanned entry. -/
theorem pass1Aux_text (items : List Item) :
    ∀ (l : List (Nat × Item)) (seen : List String) (p : Nat × Item),
      p ∈ pass1Aux items l seen → ∃ q ∈ l, p.2.text = q.2.text := by
  intro l
  induction l with
  | nil => intro seen p hp; simp [pass1Aux] at hp
  | cons x rest ih =>
    intro seen p hp
    obtain ⟨n, it⟩ := x
    simp only [pass1Aux] at hp
    by_cases hc : seen.contains (keyOf it) = true
    · rw [if_pos hc] at hp
      obtain ⟨q, hq, ht⟩ := ih seen p hp
      exact ⟨q, List.mem_cons_of_mem _ hq, ht⟩
    · rw [if_neg hc] at hp
      rw [List.mem_cons] at hp
      cases hp with
      | inl h =>
        refine ⟨(n, it), List.mem_cons_self _ _, ?_⟩
        rw [h]
        exact text_pass1Upd items it
      | inr h =>
        obtain ⟨q, hq, ht⟩ := ih (keyOf it :: seen) p h
        exact ⟨q, List.mem_cons_of_mem _ hq, ht⟩

/-- The pass-1 survivors have pairwise distinct keys, none of them already
seen. -/
theorem pass1Aux_keys (items : List Item) :
    ∀ (l : List (Nat × Item)) (seen : List String),
      ((pass1Aux items l seen).map (fun p => keyOf p.2)).Nodup ∧
      ∀ p ∈ pass1Aux items l seen, seen.contains (keyOf p.2) = false := by
  intro l
  induction l with
  | nil => intro seen; exact ⟨List.nodup_nil, by intro p hp; simp [pass1Aux] at hp⟩
  | cons x rest ih =>
    intro seen
    obtain ⟨n, it⟩ := x
    simp only [pass1Aux]
    by_cases hc : seen.contains (keyOf it) = true
    · rw [if_pos hc]
      exact ih seen
    · rw [if_neg hc]
      obtain ⟨ihn, ihs⟩ := ih (keyOf it :: seen)
      constructor
      · simp only [List.map_cons, List.nodup_cons]
        refine ⟨?_, ihn⟩
        intro hmem
        rw [List.mem_map] at hmem
        obtain ⟨p, hp, hkey⟩ := hmem
        have := ihs p hp
        rw [hkey, keyOf_pass1Upd] at this
        simp [List.contains_cons] at this
      · intro p hp
        rw [List.mem_cons] at hp
        cases hp with
        | inl h =>
          rw [h]
          show seen.contains (keyOf (pass1Upd items it)) = false
          rw [keyOf_pass1Upd]
          simpa using hc
        | inr h =>
          have := ihs p h
          simp only [List.contains_cons] at this
          simp only [List.contains_eq_any_beq] at this ⊢
          simp at this
          simp
          exact this.2

/-- With pairwise-distinct keys every key group has at most one member. -/
theorem keyGroup_len_le_one :
    ∀ (X : List Item), (X.map keyOf).Nodup → ∀ k, (keyGroup X k).length ≤ 1 := by
  intro X
  induction X with
  | nil => intro _ k; simp [keyGroup]
  | cons it rest ih =>
    intro hnd k
    simp only [List.map_cons, List.nodup_cons] at hnd
    obtain ⟨hni, hrest⟩ := hnd
    unfold keyGroup
    rw [List.filter_cons]
    by_cases hk : (keyOf it == k) = true
    · rw [if_pos (by simpa using hk)]
      have heq : keyOf it = k := by simpa using hk
      have hnil : rest.filter (fun x => keyOf x == k) = [] := by
        rw [List.filter_eq_nil_iff]
        intro x hx
        intro hxx
        apply hni
        rw [List.mem_map]
        refine ⟨x, hx, ?_⟩
        have : keyOf x = k := by simpa using hxx
        rw [this, heq]
      rw [hnil]
      simp
    · rw [if_neg (by simpa using hk)]
      exact ih hrest k

/-- Projecting the enumerated list recovers the list. -/
theorem enumFrom_map_snd : ∀ (l : List Item) (n : Nat), (enumFrom n l).map Prod.snd = l := by
  intro l
  induction l with
  | nil => intro n; rfl
  | cons it rest ih =>
    intro n
    simp only [enumFrom, List.map_cons, ih (n + 1)]

/-- When every scanned entry's key group is a singleton and nothing was
seen yet, pass 1 is the identity. -/
theorem pass1Aux_id (items : List Item) :
    ∀ (l : List (Nat × Item)) (seen : List String),
      (∀ p ∈ l, (keyGroup items (keyOf p.2)).length ≤ 1) →
      (∀ p ∈ l, seen.contains (keyOf p.2) = false) →
      ((l.map (fun p => keyOf p.2)).Nodup) →
      pass1Aux items l seen = l := by
  intro l
  induction l with
  | nil => intro seen _ _ _; rfl
  | cons x rest ih =>
    intro seen hle hseen hnd
    obtain ⟨n, it⟩ := x
    simp only [pass1Aux]
    have hc : seen.contains (keyOf it) = false := hseen (n, it) (List.mem_cons_self _ _)
    rw [if_neg (by simp at hc; simp [hc])]
    have hupd : pass1Upd items it = it := by
      unfold pass1Upd
      rw [if_neg]
      have h0 := hle (n, it) (List.mem_cons_self _ _)
      have h0' : (keyGroup items (keyOf it)).length ≤ 1 := h0
      omega
    rw [hupd]
    simp only [List.map_cons, List.nodup_cons] at hnd
    obtain ⟨hni, hrest⟩ := hnd
    congr 1
    refine ih (keyOf it :: seen) ?_ ?_ hrest
    · intro p hp
      exact hle p (List.mem_cons_of_mem _ hp)
    · intro p hp
      have h1 : seen.contains (keyOf p.2) = false := hseen p (List.mem_cons_of_mem _ hp)
      have h2 : ¬ keyOf p.2 = keyOf it := by
        intro heq
        apply hni
        rw [List.mem_map]
        exact ⟨p, hp, heq⟩
      simp only [List.contains_cons]
      simp only [List.contains_eq_any_beq] at h1 ⊢
      simp at h1
      simp [h2]
      exact h1

/-- When pass 2 finds no group, consolidation is exactly the pass-1
survivors. -/
theorem consolidate_eq_pass1 (X : List Item) (h : pass2Groups X = []) :
    checkAndMergeDuplicates X = (pass1E X).map Prod.snd := by
  unfold checkAndMergeDuplicates newItems deletedIdx
  rw [h]
  simp

/-- A three-item collection on which `consolidate` is not idempotent: the
first run merges `lemon zest` with `milk lemon juice` (they share the
`lemon` base) into a record renamed to `Milk (for recipe components)` by
the source-table loop, which the second run then merges with the surviving
`milk foam`. -/
def milkTriple : List Item :=
  [⟨"lemon zest", 1, "Other", false⟩, ⟨"milk lemon juice", 1, "Other", false⟩,
   ⟨"milk foam", 1, "Other", false⟩]

/-- Claim C2 counterexample: `consolidate` is not idempotent — on
`milkTriple` the second run still merges (the synthesized record's name is
itself component-related to a surviving item), so
`consolidate(consolidate(X)) ≠ consolidate(X)`. -/
theorem consolidate_not_idempotent_cex :
    checkAndMergeDuplicates (checkAndMergeDuplicates milkTriple)
      ≠ checkAndMergeDuplicates milkTriple ∧
    checkAndMergeDuplicates milkTriple
      = [⟨"milk foam", 1, "Other", false⟩,
         ⟨"Milk (for recipe components)", 2, "Other", false⟩] ∧
    checkAndMergeDuplicates (checkAndMergeDuplicates milkTriple)
      = [⟨"Milk (for recipe components)", 3, "Other", false⟩] := by
  refine ⟨?_, ?_, ?_⟩ <;> decide

/-- Claim C2 (corrected): `consolidate` is idempotent on every collection
none of whose items matches the component-relation table (then pass 2
forms no groups, pass 1 leaves pairwise-distinct keys, and a second run
changes nothing); in general a second run may perform further merges,
because the record synthesized by the component pass can itself be
component-related to a surviving item (see the counterexample). -/
theorem consolidate_idempotent_no_components (X : List Item)
    (h : ∀ a ∈ X, ∀ b ∈ X, relatedB a.text b.text = false) :
    checkAndMergeDuplicates (checkAndMergeDuplicates X) = checkAndMergeDuplicates X := by
  have hg1 : pass2Groups X = [] := by
    apply pass2Aux_eq_nil
    intro p hp q hq
    obtain ⟨a, ha, hpa⟩ := allItemsOf_text X p hp
    obtain ⟨b, hb, hqb⟩ := allItemsOf_text X q hq
    rw [hpa, hqb]
    exact h a ha b hb
  have hX1 : checkAndMergeDuplicates X = (pass1E X).map Prod.snd :=
    consolidate_eq_pass1 X hg1
  have hYtext : ∀ y ∈ (pass1E X).map Prod.snd, ∃ a ∈ X, y.text = a.text := by
    intro y hy
    obtain ⟨p, hp, hyp⟩ := List.mem_map.mp hy
    obtain ⟨q, hq, htext⟩ := pass1Aux_text X (enumFrom 0 X) [] p hp
    exact ⟨q.2, mem_enumFrom X 0 q hq, by rw [← hyp]; exact htext⟩
  have hY2 : ∀ a ∈ (pass1E X).map Prod.snd, ∀ b ∈ (pass1E X).map Prod.snd,
      relatedB a.text b.text = false := by
    intro a ha b hb
    obtain ⟨a', ha', haa⟩ := hYtext a ha
    obtain ⟨b', hb', hbb⟩ := hYtext b hb
    rw [haa, hbb]
    exact h a' ha' b' hb'
  have hg2 : pass2Groups ((pass1E X).map Prod.snd) = [] := by
    apply pass2Aux_eq_nil
    intro p hp q hq
    obtain ⟨a, ha, hpa⟩ := allItemsOf_text _ p hp
    obtain ⟨b, hb, hqb⟩ := allItemsOf_text _ q hq
    rw [hpa, hqb]
    exact hY2 a ha b hb
  have hY3 : checkAndMergeDuplicates ((pass1E X).map Prod.snd)
      = (pass1E ((pass1E X).map Prod.snd)).map Prod.snd :=
    consolidate_eq_pass1 _ hg2
  have hnodup : (((pass1E X).map Prod.snd).map keyOf).Nodup := by
    rw [List.map_map]
    exact (pass1Aux_keys X (enumFrom 0 X) []).1
  have henum : (enumFrom 0 ((pass1E X).map Prod.snd)).map (fun p => keyOf p.2)
      = ((pass1E X).map Prod.snd).map keyOf := by
    rw [show (fun p => keyOf p.2) = keyOf ∘ (Prod.snd : Nat × Item → Item) from rfl,
      ← List.map_map, enumFrom_map_snd]
  have hid : pass1E ((pass1E X).map Prod.snd) = enumFrom 0 ((pass1E X).map Prod.snd) := by
    apply pass1Aux_id
    · intro p _
      exact keyGroup_len_le_one _ hnodup (keyOf p.2)
    · intro p _
      rfl
    · rw [henum]
      exact hnodup
  rw [hX1, hY3, hid, enumFrom_map_snd]

/-- Witness for `consolidate_idempotent_no_components`: a collection with
an exact duplicate but no component-table matches consolidates
idempotently. -/
theorem consolidate_idempotent_no_components_witness :
    checkAndMergeDuplicates (checkAndMergeDuplicates
        [⟨"bread", 1, "Pantry", false⟩, ⟨"bread", 2, "Pantry", false⟩,
         ⟨"Cheese", 5, "Dairy", false⟩])
      = checkAndMergeDuplicates
        [⟨"bread", 1, "Pantry", false⟩, ⟨"bread", 2, "Pantry", false⟩,
         ⟨"Cheese", 5, "Dairy", false⟩] :=
  consolidate_idempotent_no_components
    [⟨"bread", 1, "Pantry", false⟩, ⟨"bread", 2, "Pantry", false⟩,
     ⟨"Cheese", 5, "Dairy", false⟩]
    (by decide)
